import Mathlib

/-
Verification of the decentralized data/caching layer of the qbz music client.

The definitions below are a shallow embedding of the TypeScript source:
  - src/lib/nostr/pendingEvents.ts   (pending broadcast queue, SWR engine, dedup)
  - src/lib/nostr/cache/fetchers.ts  (staleness predicate)
  - src/lib/nostr/client.ts          (reactions, gossip fetch, relay-list parsing)
  - src/lib/nostr/types.ts           (event codec: track/playlist parsing, references)
  - src/lib/stores/nostrSettingsStore.ts (write-relay selection)

Network effects (relay queries, publishes, signing) are made explicit: a query
is parameterized by the event store it would observe, a publish by its outcome,
and timestamps are passed as arguments instead of read from the clock.
JavaScript millisecond timestamps are modelled as Int.
-/

set_option autoImplicit false

namespace QBZ

-- ===================== Event model (src/lib/nostr/types.ts) =====================

/-- Signed nostr event as exchanged with relays: id, pubkey, created_at, kind,
tags, content (signature omitted: this layer never verifies it). -/
structure NEvent where
  id : String
  pubkey : String
  created_at : Int
  kind : Int
  tags : List (List String)
  content : String
deriving DecidableEq, Repr

def MUSIC_TRACK_KIND : Int := 36787
def PLAYLIST_KIND : Int := 34139
def PROFILE_KIND : Int := 0
def DELETION_KIND : Int := 5
def REACTION_KIND : Int := 7
def RELAY_LIST_KIND : Int := 10002

/-- First tag whose key (element 0) is k, returning its values (the tail);
models the single-valued tags map built by the parsers. -/
def firstTagValues (e : NEvent) (k : String) : Option (List String) :=
  (e.tags.find? (fun t => t.head? = some k)).map (fun t => t.drop 1)

/-- Models tags.get(k) followed by [0]: the first value of the first tag named k. -/
def firstTagValue (e : NEvent) (k : String) : Option String :=
  (firstTagValues e k).bind List.head?

/-- Values (tails) of every tag named k, in order; models the multiTags map. -/
def allTagValues (e : NEvent) (k : String) : List (List String) :=
  (e.tags.filter (fun t => t.head? = some k)).map (fun t => t.drop 1)

/-- JavaScript String.prototype.split with a one-character separator,
on the character list of the string. -/
def splitOnColonAux : List Char → List Char → List String
  | [], acc => [String.mk acc.reverse]
  | c :: cs, acc =>
    if c = ':' then String.mk acc.reverse :: splitOnColonAux cs []
    else splitOnColonAux cs (c :: acc)

/-- Models ref.split of the colon character in JavaScript. -/
def splitOnColon (s : String) : List String :=
  splitOnColonAux s.data []

/-- Digits of a decimal numeral folded into a Nat. -/
def digitsToNat (ds : List Char) : Nat :=
  ds.foldl (fun n c => n * 10 + (c.toNat - '0'.toNat)) 0

/-- Models JavaScript parseInt in base 10 on trimmed input: an optional sign
followed by leading decimal digits; NaN (no leading digit) is rendered none,
trailing garbage is ignored as in JavaScript. -/
def jsParseInt (s : String) : Option Int :=
  let p : Int × List Char :=
    match s.data with
    | '-' :: r => (-1, r)
    | '+' :: r => (1, r)
    | cs => (1, cs)
  let ds := p.2.takeWhile Char.isDigit
  if ds = [] then none
  else some (p.1 * (digitsToNat ds : Int))

-- ===================== Addressable track references =====================

/-- Parsed pointer to an addressable track event. -/
structure TrackReference where
  kind : Int
  pubkey : String
  dTag : String
deriving DecidableEq, Repr

/-- Parse a track reference string of the form kind:pubkey:dTag
(types.ts parseTrackReference): split on colons, require exactly three
parts, require the kind to parse to the music track kind. -/
def parseTrackReference (ref : String) : Option TrackReference :=
  match splitOnColon ref with
  | [kindStr, pubkey, dTag] =>
    match jsParseInt kindStr with
    | some k => if k = MUSIC_TRACK_KIND then some ⟨k, pubkey, dTag⟩ else none
    | none => none
  | _ => none

/-- Build a track reference string (types.ts createTrackReference):
template interpolation of the track kind, pubkey and d tag with colons. -/
def createTrackReference (pubkey dTag : String) : String :=
  toString MUSIC_TRACK_KIND ++ ":" ++ pubkey ++ ":" ++ dTag

-- ===================== Relay lists and write-relay selection =====================

/-- Relay declaration parsed from a kind 10002 relay-list event. -/
structure Nip65Relay where
  url : String
  read : Bool
  write : Bool
deriving DecidableEq, Repr

/-- Parse the r tags of a relay-list event (client.ts fetchNip65Relays):
a tag r with a non-empty url and an optional marker; a missing or empty
marker means both read and write. -/
def parseRelayListTags (tags : List (List String)) : List Nip65Relay :=
  tags.filterMap (fun t =>
    match t.head?, (t.drop 1).head? with
    | some k, some url =>
      if k = "r" ∧ url ≠ "" then
        let marker := (t.drop 2).head?
        let falsy := marker = none ∨ marker = some ""
        some ⟨url, decide (falsy ∨ marker = some "read"),
                   decide (falsy ∨ marker = some "write")⟩
      else none
    | _, _ => none)

/-- JavaScript Set construction from a list: keep the first occurrence of
each element, preserving order. -/
def dedupKeepFirst : List String → List String
  | [] => []
  | x :: xs => x :: (dedupKeepFirst xs).filter (fun y => y ≠ x)

/-- Write-relay selection for publishing (nostrSettingsStore.ts
getUserWriteRelays): the urls of write-marked NIP-65 relays, falling back to
the bootstrap relay list when no write relay is configured. -/
def getUserWriteRelays (nip65Relays : List Nip65Relay) (bootstrapRelays : List String) :
    List String :=
  let writeRelays := (nip65Relays.filter (fun r => r.write)).map (fun r => r.url)
  if writeRelays.length = 0 then bootstrapRelays else writeRelays

-- ===================== Gossip artist fetch =====================

/-- Relay sets actually queried by the gossip artist fetch. -/
structure NostrArtistFetch where
  profileQueryRelays : List String
  tracksQueryRelays : List String
deriving DecidableEq, Repr

/-- Relay union computed by client.ts fetchArtistWithGossip: connected
(bootstrap) relays together with the write-marked relays declared in the
artist relay list, deduplicated in insertion order by a Set. -/
def fetchArtistWithGossipRelays (connectedRelays : List String)
    (nip65Relays : List Nip65Relay) : List String :=
  let writeRelays := (nip65Relays.filter (fun r => r.write)).map (fun r => r.url)
  dedupKeepFirst (connectedRelays ++ writeRelays)

/-- Gossip artist fetch (client.ts fetchArtistWithGossip), reduced to the
relay sets it queries: both the profile query and the tracks query are issued
against the deduplicated union. The relay-list query result is a parameter
since it is a network effect. -/
def fetchArtistWithGossip (connectedRelays : List String)
    (nip65Relays : List Nip65Relay) : NostrArtistFetch :=
  let allRelays := fetchArtistWithGossipRelays connectedRelays nip65Relays
  ⟨allRelays, allRelays⟩

-- ===================== SWR engine (pendingEvents.ts swr, fetchers.ts isStale) =====================

/-- Cached value with the time it was fetched (milliseconds). -/
structure CacheEntry (T : Type) where
  data : T
  fetchedAt : Int
deriving DecidableEq, Repr

/-- Staleness predicate (fetchers.ts isStale): the age of the entry strictly
exceeds the threshold; the current time is an explicit argument. -/
def isStale (fetchedAt staleThreshold nowMs : Int) : Bool :=
  nowMs - fetchedAt > staleThreshold

/-- Result returned to the caller of swr. -/
structure SWRResult (T : Type) where
  data : T
  fromCache : Bool
  isRevalidating : Bool
deriving DecidableEq, Repr

/-- Observable trace of one swr run: the value handed to the caller, how many
synchronous and background fetches were issued, the cache entry left behind,
the update-callback invocations and the error-callback invocations. -/
structure SWRTrace (T E : Type) where
  result : Except E (SWRResult T)
  syncFetches : Nat
  bgFetches : Nat
  cacheAfter : Option (CacheEntry T)
  updates : List T
  errorCalls : Nat
deriving Repr

/-- Background revalidation (pendingEvents.ts revalidateInBackground): on a
successful fetch the cache is overwritten and the update callback fired; on a
failed fetch the error callback fires and the cache is left as it was. -/
def revalidateInBackground {T E : Type} (fetchResult : Except E T) (bgNowMs : Int)
    (cacheBefore : Option (CacheEntry T)) :
    Option (CacheEntry T) × List T × Nat :=
  match fetchResult with
  | .ok fresh => (some ⟨fresh, bgNowMs⟩, [fresh], 0)
  | .error _ => (cacheBefore, [], 0 + 1)

/-- SWR engine (pendingEvents.ts swr): serve a present cache entry, spawning a
background revalidation when it is stale; otherwise fetch synchronously, write
the cache and return the fresh value. The cached entry, the fetch outcome and
the two clock reads (at the cache check and at the fetch completion) are
explicit arguments. -/
def swr {T E : Type} (cached : Option (CacheEntry T)) (fetchResult : Except E T)
    (nowMs bgNowMs staleThreshold : Int) : SWRTrace T E :=
  match cached with
  | some entry =>
    if isStale entry.fetchedAt staleThreshold nowMs then
      let bg := revalidateInBackground fetchResult bgNowMs (some entry)
      ⟨.ok ⟨entry.data, true, true⟩, 0, 1, bg.1, bg.2.1, bg.2.2⟩
    else
      ⟨.ok ⟨entry.data, true, false⟩, 0, 0, some entry, [], 0⟩
  | none =>
    match fetchResult with
    | .ok fresh => ⟨.ok ⟨fresh, false, false⟩, 1, 0, some ⟨fresh, nowMs⟩, [], 0⟩
    | .error e => ⟨.error e, 1, 0, none, [], 0⟩

-- ===================== Pending broadcast queue (pendingEvents.ts) =====================

/-- Queued signed-but-unconfirmed event with its target relay set, the wall
time it was queued at and its retry count. -/
structure PendingEvent where
  event : NEvent
  targetRelays : List String
  createdAt : Int
  retryCount : Nat
deriving DecidableEq, Repr

/-- Seven days in milliseconds, the age ceiling of the retry sweep. -/
def maxAgeMs : Int := 7 * 24 * 60 * 60 * 1000

/-- Queue insertion (pendingEvents.ts addPendingEvent), reduced to the queue
transition: re-adding an id already queued is a no-op, otherwise the event is
appended with its target relays. Queue entries made by addPendingEvent start
at retryCount 0 with the current time; here the pair list keeps only the data
the reaction claims need. -/
def addPendingEvent (queue : List (NEvent × List String)) (event : NEvent)
    (targetRelays : List String) : List (NEvent × List String) :=
  if queue.any (fun p => p.1.id = event.id) then queue
  else queue ++ [(event, targetRelays)]

/-- Observable trace of one retry sweep. -/
structure RetryTrace where
  successCount : Nat
  remaining : List PendingEvent
  attempts : List (String × List String)
deriving DecidableEq, Repr

/-- Retry sweep (pendingEvents.ts retryPendingEvents): walk the queue in
order; drop items older than seven days or with ten or more retries without
publishing; publish the rest to their full target relay set, counting
successes and keeping failures with the retry count incremented. The publish
outcome per item is a parameter, and attempts records each publish that was
issued as the pair of event id and relay set. -/
def retryPendingEvents (nowMs : Int) (publishOk : PendingEvent → Bool) :
    List PendingEvent → RetryTrace
  | [] => ⟨0, [], []⟩
  | item :: rest =>
    let t := retryPendingEvents nowMs publishOk rest
    if nowMs - item.createdAt > maxAgeMs then t
    else if item.retryCount ≥ 10 then t
    else if publishOk item then
      ⟨t.successCount + 1, t.remaining, (item.event.id, item.targetRelays) :: t.attempts⟩
    else
      ⟨t.successCount, { item with retryCount := item.retryCount + 1 } :: t.remaining,
        (item.event.id, item.targetRelays) :: t.attempts⟩

-- ===================== Relay query model (spec section 4.3 boundary) =====================

/-- Relay query filter, restricted to the fields this layer sends: kinds,
authors and the k and a tag filters. -/
structure NFilter where
  kinds : List Int
  authors : List String
  kTag : Option (List String)
  aTag : Option (List String)
deriving Repr

/-- Event has a tag with the given single-letter key whose first value lies
in the given list; the standard relay semantics of a tag filter. -/
def tagMatches (e : NEvent) (letter : String) (vals : List String) : Bool :=
  e.tags.any (fun t =>
    t.head? = some letter &&
      match (t.drop 1).head? with
      | some v => v ∈ vals
      | none => false)

/-- Relay-side filter matching for the filter fields used by this layer. -/
def filterMatches (f : NFilter) (e : NEvent) : Bool :=
  (e.kind ∈ f.kinds : Bool) && (e.pubkey ∈ f.authors : Bool) &&
    (match f.kTag with | some vs => tagMatches e "k" vs | none => true) &&
    (match f.aTag with | some vs => tagMatches e "a" vs | none => true)

/-- Merged query result deduplicated by event id, keeping first occurrences. -/
def dedupById : List NEvent → List NEvent
  | [] => []
  | e :: es => e :: (dedupById es).filter (fun x => x.id ≠ e.id)

/-- Multi-relay query at the external pool boundary (spec section 4.3): the
events of the observed store matching the filter, deduplicated by id. The
observed store is an explicit parameter standing for whatever the queried
relays returned. -/
def querySync (store : List NEvent) (f : NFilter) : List NEvent :=
  dedupById (store.filter (filterMatches f))

-- ===================== Reaction subsystem (client.ts) =====================

/-- Key of the in-session liked-membership cache: pubkey and d tag joined by
a colon. -/
def likedKey (trackPubkey trackDTag : String) : String :=
  trackPubkey ++ ":" ++ trackDTag

/-- In-session reaction state: the optional liked-membership cache (a Set of
likedKey strings, kept as an insertion-ordered list) and the pending
broadcast queue. -/
structure LikeState where
  likedTracksCache : Option (List String)
  pendingQueue : List (NEvent × List String)
deriving DecidableEq, Repr

/-- Cache insertion (client.ts addToLikedCache): a no-op when no cache is
loaded, otherwise Set.add of the key. -/
def addToLikedCache (trackPubkey trackDTag : String) :
    Option (List String) → Option (List String)
  | none => none
  | some s =>
    some (if likedKey trackPubkey trackDTag ∈ s then s
          else s ++ [likedKey trackPubkey trackDTag])

/-- Cache removal (client.ts removeFromLikedCache): a no-op when no cache is
loaded, otherwise Set.delete of the key. -/
def removeFromLikedCache (trackPubkey trackDTag : String) :
    Option (List String) → Option (List String)
  | none => none
  | some s => some (s.filter (fun k => k ≠ likedKey trackPubkey trackDTag))

/-- Affirmation markers counted as a like by client.ts: the plus sign and the
two emoji literals of the source. -/
def affirmativeContent (s : String) : Bool :=
  s = "+" ∨ s = "❤️" ∨ s = "🤙"

/-- Signed reaction event built by likeTrack: e, a, p and k tags on the
target and content plus; the event id is the signature-derived id produced by
the signer, passed in as a parameter. -/
def buildLikeEvent (signedId userPubkey : String) (createdAtSec : Int)
    (trackEventId trackPubkey trackDTag : String) : NEvent :=
  ⟨signedId, userPubkey, createdAtSec, REACTION_KIND,
    [["e", trackEventId],
     ["a", createTrackReference trackPubkey trackDTag],
     ["p", trackPubkey],
     ["k", toString MUSIC_TRACK_KIND]],
    "+"⟩

/-- Observable trace of one likeTrack or unlikeTrack call. -/
structure ReactionTrace where
  returned : Except Unit Bool
  signed : Option NEvent
  published : List (NEvent × List String)
  state : LikeState
deriving Repr

/-- Like action (client.ts likeTrack): sign the reaction, optimistically add
the membership key, publish to the deduplicated union of the user write
relays and the artist read relays; on publish failure add the signed event to
the pending queue and rethrow. The signer output, relay lists and the
aggregate publish outcome are parameters. -/
def likeTrack (trackEventId trackPubkey trackDTag : String)
    (signedId userPubkey : String) (createdAtSec : Int)
    (userWriteRelays : List String) (artistNip65 : List Nip65Relay)
    (publishOk : Bool) (st : LikeState) : ReactionTrace :=
  let event := buildLikeEvent signedId userPubkey createdAtSec
    trackEventId trackPubkey trackDTag
  let cache1 := addToLikedCache trackPubkey trackDTag st.likedTracksCache
  let artistReadRelays := (artistNip65.filter (fun r => r.read)).map (fun r => r.url)
  let targetRelays := dedupKeepFirst (userWriteRelays ++ artistReadRelays)
  if publishOk then
    ⟨.ok true, some event, [(event, targetRelays)], ⟨cache1, st.pendingQueue⟩⟩
  else
    ⟨.error (), some event, [(event, targetRelays)],
      ⟨cache1, addPendingEvent st.pendingQueue event targetRelays⟩⟩

/-- Liked-set fetch (client.ts fetchUserLikedTrackRefs): query the connected
relays for the user reaction events carrying a music-track k tag, and collect
pubkey:dTag refs from the a tags of affirmative reactions. The observed relay
store is a parameter. -/
def collectLikedRefs (events : List NEvent) : List String :=
  events.foldl (fun acc event =>
    if affirmativeContent event.content then
      event.tags.foldl (fun acc tag =>
        match tag.head?, (tag.drop 1).head? with
        | some k, some v =>
          if k = "a" ∧ v ≠ "" then
            match splitOnColon v with
            | kindStr :: pk :: rest =>
              if rest ≠ [] ∧ kindStr = toString MUSIC_TRACK_KIND then
                let r := pk ++ ":" ++ String.intercalate ":" rest
                if r ∈ acc then acc else acc ++ [r]
              else acc
            | _ => acc
          else acc
        | _, _ => acc) acc
    else acc) []

/-- Liked-set fetch continued: the query issued by fetchUserLikedTrackRefs
followed by the collection loop. -/
def fetchUserLikedTrackRefs (store : List NEvent) (userPubkey : String) :
    List String :=
  collectLikedRefs (querySync store
    ⟨[REACTION_KIND], [userPubkey], some [toString MUSIC_TRACK_KIND], none⟩)

/-- Membership check (client.ts isTrackLiked): prefer the in-session cache
when it belongs to the asking user; otherwise preload the liked set from the
relays and answer from it. Returns the answer together with the cache and
cache-owner after the call. -/
def isTrackLiked (store : List NEvent) (cache : Option (List String))
    (cacheUser : Option String) (userPubkey trackPubkey trackDTag : String) :
    Bool × Option (List String) × Option String :=
  match cache, cacheUser with
  | some s, some u =>
    if u = userPubkey then
      (likedKey trackPubkey trackDTag ∈ s, some s, some u)
    else
      let s2 := fetchUserLikedTrackRefs store userPubkey
      (likedKey trackPubkey trackDTag ∈ s2, some s2, some userPubkey)
  | _, _ =>
    let s2 := fetchUserLikedTrackRefs store userPubkey
    (likedKey trackPubkey trackDTag ∈ s2, some s2, some userPubkey)

/-- Prior-reaction lookup (client.ts findUserReactionEventId): query the user
reaction events whose a tag names the target track and return the id of the
first affirmative one. -/
def findUserReactionEventId (store : List NEvent)
    (userPubkey trackPubkey trackDTag : String) : Option String :=
  let events := querySync store
    ⟨[REACTION_KIND], [userPubkey], none,
      some [createTrackReference trackPubkey trackDTag]⟩
  (events.find? (fun e => affirmativeContent e.content)).map (fun e => e.id)

/-- Unlike action (client.ts unlikeTrack): locate the prior reaction; when
none exists return false without signing, publishing, queueing or touching
state; otherwise sign a deletion event naming the reaction id, optimistically
remove the membership key, publish to the deduplicated union of user write
relays and artist read relays, queueing the event on failure without
throwing, and return true. -/
def unlikeTrack (store : List NEvent) (userPubkey trackPubkey trackDTag : String)
    (deletionId : String) (createdAtSec : Int)
    (userWriteRelays : List String) (artistNip65 : List Nip65Relay)
    (publishOk : Bool) (st : LikeState) : ReactionTrace :=
  match findUserReactionEventId store userPubkey trackPubkey trackDTag with
  | none => ⟨.ok false, none, [], st⟩
  | some reactionEventId =>
    let event : NEvent :=
      ⟨deletionId, userPubkey, createdAtSec, DELETION_KIND,
        [["e", reactionEventId], ["k", toString REACTION_KIND]], "unlike"⟩
    let cache1 := removeFromLikedCache trackPubkey trackDTag st.likedTracksCache
    let artistReadRelays := (artistNip65.filter (fun r => r.read)).map (fun r => r.url)
    let targetRelays := dedupKeepFirst (userWriteRelays ++ artistReadRelays)
    if publishOk then
      ⟨.ok true, some event, [(event, targetRelays)], ⟨cache1, st.pendingQueue⟩⟩
    else
      ⟨.ok true, some event, [(event, targetRelays)],
        ⟨cache1, addPendingEvent st.pendingQueue event targetRelays⟩⟩

-- ===================== Track dedup (pendingEvents.ts deduplicateTracks) =====================

/-- Fields of a track entity used by identifier-keyed deduplication. -/
structure TrackEntity where
  pubkey : String
  d : String
  createdAt : Int
deriving DecidableEq, Repr

/-- Composite dedup key: string concatenation of pubkey and d with a colon. -/
def dedupKey (t : TrackEntity) : String :=
  t.pubkey ++ ":" ++ t.d

/-- JavaScript Map.set on an insertion-ordered association list: replace in
place when the key exists, append otherwise. -/
def mapSet : List (String × TrackEntity) → String → TrackEntity →
    List (String × TrackEntity)
  | [], k, v => [(k, v)]
  | (k1, v1) :: rest, k, v =>
    if k1 = k then (k, v) :: rest else (k1, v1) :: mapSet rest k v

/-- JavaScript Map.get on the association list: first entry with the key. -/
def mapGet (m : List (String × TrackEntity)) (k : String) : Option TrackEntity :=
  (m.find? (fun p => p.1 = k)).map (fun p => p.2)

/-- One step of the dedup fold: keep the stored entry unless the incoming
track has a strictly greater createdAt (or the key is new). -/
def dedupStep (m : List (String × TrackEntity)) (track : TrackEntity) :
    List (String × TrackEntity) :=
  let k := dedupKey track
  match mapGet m k with
  | some existing =>
    if track.createdAt > existing.createdAt then mapSet m k track else m
  | none => mapSet m k track

/-- Identifier-keyed dedup (pendingEvents.ts deduplicateTracks): fold the
tracks through a Map keyed on pubkey:d keeping the highest createdAt, then
list the Map values in key insertion order. -/
def deduplicateTracks (tracks : List TrackEntity) : List TrackEntity :=
  (tracks.foldl dedupStep []).map (fun p => p.2)

-- ===================== Event codec (types.ts parsers) =====================

/-- Lightning split parsed from a zap tag; a missing weight (absent or empty
second value) is none, and a weight that does not parse is also rendered
none (JavaScript would store NaN). -/
structure ZapSplit where
  address : Option String
  weight : Option Int
deriving DecidableEq, Repr

/-- Parsed track entity. The naddr field of the source (a NIP-19 bech32
rendering of kind, pubkey and d computed by the external nostr-tools encoder)
is omitted; numeric fields rendered NaN by parseInt are modelled none. -/
structure NostrMusicTrack where
  id : String
  pubkey : String
  createdAt : Int
  d : String
  title : String
  artist : String
  url : String
  alt : Option String
  image : Option String
  video : Option String
  album : Option String
  trackNumber : Option Int
  released : Option String
  genres : List String
  language : Option String
  explicit : Bool
  duration : Option Int
  format : Option String
  bitrate : Option String
  sampleRate : Option Int
  zapSplits : List ZapSplit
  content : String
deriving DecidableEq, Repr

/-- Numeric optional field: applied only when the tag value is a non-empty
string (the truthiness guard of the source), then parsed with parseInt. -/
def optNumField (e : NEvent) (k : String) : Option Int :=
  match firstTagValue e k with
  | some s => if s = "" then none else jsParseInt s
  | none => none

/-- Track parser (types.ts parseMusicTrackEvent): reject other kinds, require
truthy d, title, artist and url first-tag values, map the optional fields and
collect genre and zap tags. -/
def parseMusicTrackEvent (e : NEvent) : Option NostrMusicTrack :=
  if e.kind ≠ MUSIC_TRACK_KIND then none
  else
    match firstTagValue e "d", firstTagValue e "title",
          firstTagValue e "artist", firstTagValue e "url" with
    | some d, some title, some artist, some url =>
      if d = "" ∨ title = "" ∨ artist = "" ∨ url = "" then none
      else
        let genres := ((allTagValues e "t").filterMap List.head?).filter
          (fun s => s ≠ "" ∧ s ≠ "music")
        let zapSplits := (allTagValues e "zap").map (fun z =>
          ZapSplit.mk z.head?
            (match (z.drop 1).head? with
             | some s => if s = "" then none else jsParseInt s
             | none => none))
        some
          { id := e.id, pubkey := e.pubkey, createdAt := e.created_at,
            d := d, title := title, artist := artist, url := url,
            alt := firstTagValue e "alt", image := firstTagValue e "image",
            video := firstTagValue e "video", album := firstTagValue e "album",
            trackNumber := optNumField e "track_number",
            released := firstTagValue e "released", genres := genres,
            language := firstTagValue e "language",
            explicit := firstTagValue e "explicit" = some "true",
            duration := optNumField e "duration",
            format := firstTagValue e "format",
            bitrate := firstTagValue e "bitrate",
            sampleRate := optNumField e "sample_rate",
            zapSplits := zapSplits, content := e.content }
    | _, _, _, _ => none

/-- Parsed playlist entity; naddr omitted as for tracks. -/
structure NostrPlaylist where
  id : String
  pubkey : String
  createdAt : Int
  d : String
  title : String
  alt : String
  description : Option String
  image : Option String
  isPublic : Bool
  isPrivate : Bool
  isCollaborative : Bool
  categories : List String
  trackRefs : List TrackReference
  content : String
deriving DecidableEq, Repr

/-- Playlist parser (types.ts parsePlaylistEvent): reject other kinds,
require truthy d, title and alt, then map the track pointers of the a tags
through parseTrackReference dropping malformed ones. The source calls
parseTrackReference on a[0] without a guard, so an a tag carrying no value
makes it call split on undefined, raising a TypeError that propagates out of
the parser; that crash is modelled as the error of the Except. -/
def parsePlaylistEvent (e : NEvent) : Except Unit (Option NostrPlaylist) :=
  if e.kind ≠ PLAYLIST_KIND then .ok none
  else
    match firstTagValue e "d", firstTagValue e "title", firstTagValue e "alt" with
    | some d, some title, some alt =>
      if d = "" ∨ title = "" ∨ alt = "" then .ok none
      else if (allTagValues e "a").any (fun a => a.head? = none) then .error ()
      else
        let trackRefs := (allTagValues e "a").filterMap
          (fun a => a.head?.bind parseTrackReference)
        let categories := ((allTagValues e "t").filterMap List.head?).filter
          (fun s => s ≠ "" ∧ s ≠ "playlist")
        .ok (some
          { id := e.id, pubkey := e.pubkey, createdAt := e.created_at,
            d := d, title := title, alt := alt,
            description := firstTagValue e "description",
            image := firstTagValue e "image",
            isPublic := firstTagValue e "public" = some "true" ∨
              (firstTagValues e "private") = none,
            isPrivate := firstTagValue e "private" = some "true",
            isCollaborative := firstTagValue e "collaborative" = some "true",
            categories := categories, trackRefs := trackRefs,
            content := e.content })
    | _, _, _ => .ok none

-- ===================== Lemmas on core list helpers =====================

theorem dedupKeepFirst_mem (x : String) : ∀ l : List String,
    x ∈ dedupKeepFirst l ↔ x ∈ l := by
  intro l
  induction l with
  | nil => simp [dedupKeepFirst]
  | cons a as ih =>
    simp only [dedupKeepFirst, List.mem_cons, List.mem_filter]
    constructor
    · rintro (rfl | ⟨hmem, _⟩)
      · exact Or.inl rfl
      · exact Or.inr (ih.mp hmem)
    · rintro (rfl | hmem)
      · exact Or.inl rfl
      · by_cases hx : x = a
        · exact Or.inl hx
        · exact Or.inr ⟨ih.mpr hmem, by simpa using hx⟩

theorem dedupKeepFirst_nodup : ∀ l : List String, (dedupKeepFirst l).Nodup := by
  intro l
  induction l with
  | nil => simp [dedupKeepFirst]
  | cons a as ih =>
    simp only [dedupKeepFirst]
    refine List.Nodup.cons ?_ (List.Nodup.filter _ ih)
    intro hmem
    rcases List.mem_filter.mp hmem with ⟨_, hne⟩
    simp at hne

theorem mem_of_mem_dedupById {e : NEvent} : ∀ {l : List NEvent},
    e ∈ dedupById l → e ∈ l := by
  intro l
  induction l with
  | nil => simp [dedupById]
  | cons a as ih =>
    intro h
    rcases List.mem_cons.mp h with rfl | h2
    · exact List.mem_cons_self _ _
    · exact List.mem_cons_of_mem _ (ih (List.mem_filter.mp h2).1)

theorem mem_querySync {store : List NEvent} {f : NFilter} {e : NEvent}
    (h : e ∈ querySync store f) : e ∈ store ∧ filterMatches f e = true := by
  have h2 := mem_of_mem_dedupById h
  exact ⟨(List.mem_filter.mp h2).1, (List.mem_filter.mp h2).2⟩

theorem addPendingEvent_mem_id (q : List (NEvent × List String)) (e : NEvent)
    (r : List String) : ∃ p ∈ addPendingEvent q e r, p.1.id = e.id := by
  unfold addPendingEvent
  by_cases h : q.any (fun p => p.1.id = e.id)
  · simp only [h, if_pos]
    rcases List.any_eq_true.mp h with ⟨p, hp, hid⟩
    exact ⟨p, hp, of_decide_eq_true hid⟩
  · refine ⟨(e, r), ?_, rfl⟩
    simp [h]

theorem addPendingEvent_not_queued (q : List (NEvent × List String)) (e : NEvent)
    (r : List String) (h : ∀ p ∈ q, p.1.id ≠ e.id) :
    addPendingEvent q e r = q ++ [(e, r)] := by
  unfold addPendingEvent
  have : q.any (fun p => p.1.id = e.id) = false := by
    simp only [List.any_eq_false]
    intro p hp
    simpa using h p hp
  simp [this]

-- ===================== C10: write-relay selection =====================

/-- C10: getUserWriteRelays returns exactly the write-marked relay urls when
at least one exists, silently falls back to the bootstrap relay list when no
relay is write-marked (including an empty relay list), so the publish target
set is non-empty whenever the bootstrap set is non-empty. -/
theorem getUserWriteRelays_spec (nip65 : List Nip65Relay) (bootstrap : List String) :
    ((nip65.filter (fun r => r.write)).map (fun r => r.url) ≠ [] →
      getUserWriteRelays nip65 bootstrap =
        (nip65.filter (fun r => r.write)).map (fun r => r.url)) ∧
    ((nip65.filter (fun r => r.write)).map (fun r => r.url) = [] →
      getUserWriteRelays nip65 bootstrap = bootstrap) ∧
    (bootstrap ≠ [] → getUserWriteRelays nip65 bootstrap ≠ []) := by
  have hdef : getUserWriteRelays nip65 bootstrap =
      if (nip65.filter (fun r => r.write)).map (fun r => r.url) = [] then bootstrap
      else (nip65.filter (fun r => r.write)).map (fun r => r.url) := by
    show (if ((nip65.filter (fun r => r.write)).map (fun r => r.url)).length = 0
        then bootstrap
        else (nip65.filter (fun r => r.write)).map (fun r => r.url)) = _
    rcases (nip65.filter (fun r => r.write)).map (fun r => r.url) with _ | ⟨u, us⟩
    · simp
    · simp
  by_cases hE : (nip65.filter (fun r => r.write)).map (fun r => r.url) = []
  · rw [hdef, if_pos hE]
    exact ⟨fun h => absurd hE h, fun _ => rfl, fun h => h⟩
  · rw [hdef, if_neg hE]
    exact ⟨fun _ => rfl, fun h => absurd h hE, fun _ => hE⟩

theorem getUserWriteRelays_spec_witness :
    getUserWriteRelays [⟨"wss://x", false, true⟩] ["wss://a"] = ["wss://x"] ∧
    getUserWriteRelays [⟨"wss://y", true, false⟩] ["wss://a"] = ["wss://a"] :=
  ⟨(getUserWriteRelays_spec [⟨"wss://x", false, true⟩] ["wss://a"]).1 (by decide),
   (getUserWriteRelays_spec [⟨"wss://y", true, false⟩] ["wss://a"]).2.1 (by decide)⟩

-- ===================== C7: gossip relay union =====================

/-- C7: a gossip content fetch for an author issues its profile query and its
tracks query against exactly the deduplicated union of the bootstrap
(connected) relays and the write-marked relays declared in the author relay
list: every such relay is queried, each exactly once, and no other relay. -/
theorem fetchArtistWithGossip_spec (connected : List String)
    (nip65 : List Nip65Relay) :
    (fetchArtistWithGossip connected nip65).profileQueryRelays =
      (fetchArtistWithGossip connected nip65).tracksQueryRelays ∧
    (∀ r : String,
      r ∈ (fetchArtistWithGossip connected nip65).profileQueryRelays ↔
        (r ∈ connected ∨ ∃ n ∈ nip65, n.write = true ∧ n.url = r)) ∧
    (fetchArtistWithGossip connected nip65).profileQueryRelays.Nodup := by
  refine ⟨rfl, ?_, dedupKeepFirst_nodup _⟩
  intro r
  show r ∈ dedupKeepFirst (connected ++ _) ↔ _
  rw [dedupKeepFirst_mem, List.mem_append]
  simp only [List.mem_map, List.mem_filter]
  constructor
  · rintro (h | ⟨n, ⟨hn, hw⟩, hurl⟩)
    · exact Or.inl h
    · exact Or.inr ⟨n, hn, hw, hurl⟩
  · rintro (h | ⟨n, hn, hw, hurl⟩)
    · exact Or.inl h
    · exact Or.inr ⟨n, ⟨hn, hw⟩, hurl⟩

-- ===================== C3: like publish failure =====================

/-- C3: when the publish of a like fails, the signed reaction event is handed
to the pending broadcast queue (appended with its full target relay set when
its id is not already queued) and the optimistic liked-membership entry added
before publishing is not rolled back, while the failure is surfaced to the
caller. -/
theorem likeTrack_failure_spec (trackEventId trackPubkey trackDTag : String)
    (signedId userPubkey : String) (createdAtSec : Int)
    (userWriteRelays : List String) (artistNip65 : List Nip65Relay)
    (st : LikeState) (s : List String)
    (hcache : st.likedTracksCache = some s) :
    (likeTrack trackEventId trackPubkey trackDTag signedId userPubkey
      createdAtSec userWriteRelays artistNip65 false st).returned = .error () ∧
    (∃ s2, (likeTrack trackEventId trackPubkey trackDTag signedId userPubkey
        createdAtSec userWriteRelays artistNip65 false st).state.likedTracksCache
        = some s2 ∧ likedKey trackPubkey trackDTag ∈ s2) ∧
    (∃ p ∈ (likeTrack trackEventId trackPubkey trackDTag signedId userPubkey
        createdAtSec userWriteRelays artistNip65 false st).state.pendingQueue,
      p.1.id = signedId) ∧
    ((∀ p ∈ st.pendingQueue, p.1.id ≠ signedId) →
      (likeTrack trackEventId trackPubkey trackDTag signedId userPubkey
        createdAtSec userWriteRelays artistNip65 false st).state.pendingQueue =
      st.pendingQueue ++
        [(buildLikeEvent signedId userPubkey createdAtSec trackEventId
            trackPubkey trackDTag,
          dedupKeepFirst (userWriteRelays ++
            (artistNip65.filter (fun r => r.read)).map (fun r => r.url)))]) := by
  refine ⟨rfl, ?_, ?_, ?_⟩
  · show ∃ s2, addToLikedCache trackPubkey trackDTag st.likedTracksCache = some s2
        ∧ likedKey trackPubkey trackDTag ∈ s2
    rw [hcache]
    simp only [addToLikedCache]
    by_cases h : likedKey trackPubkey trackDTag ∈ s
    · exact ⟨s, by simp [h], h⟩
    · exact ⟨s ++ [likedKey trackPubkey trackDTag], by simp [h], by simp⟩
  · exact addPendingEvent_mem_id st.pendingQueue _ _
  · intro h
    exact addPendingEvent_not_queued _ _ _ h

theorem likeTrack_failure_spec_witness :
    (∃ p ∈ (likeTrack "t1" "bob" "song" "sid" "alice" 10 ["wss://a"] [] false
        ⟨some [], []⟩).state.pendingQueue, p.1.id = "sid") ∧
    (∃ s2, (likeTrack "t1" "bob" "song" "sid" "alice" 10 ["wss://a"] [] false
        ⟨some [], []⟩).state.likedTracksCache = some s2 ∧ "bob:song" ∈ s2) :=
  ⟨(likeTrack_failure_spec "t1" "bob" "song" "sid" "alice" 10 ["wss://a"] []
      ⟨some [], []⟩ [] rfl).2.2.1,
   (likeTrack_failure_spec "t1" "bob" "song" "sid" "alice" 10 ["wss://a"] []
      ⟨some [], []⟩ [] rfl).2.1⟩

-- ===================== C9: unlike with no prior reaction =====================

/-- C9: when the observed relay store holds no affirmative reaction by the
user naming the target track through its addressable reference, unlikeTrack
is a no-op: it returns false, signs nothing, publishes nothing, queues
nothing and leaves the membership cache and pending queue unchanged. -/
theorem unlikeTrack_noop_spec (store : List NEvent)
    (userPubkey trackPubkey trackDTag deletionId : String) (createdAtSec : Int)
    (userWriteRelays : List String) (artistNip65 : List Nip65Relay)
    (publishOk : Bool) (st : LikeState)
    (hnone : ∀ e ∈ store, e.kind = REACTION_KIND → e.pubkey = userPubkey →
      tagMatches e "a" [createTrackReference trackPubkey trackDTag] = true →
      affirmativeContent e.content = false) :
    unlikeTrack store userPubkey trackPubkey trackDTag deletionId createdAtSec
      userWriteRelays artistNip65 publishOk st =
      ⟨.ok false, none, [], st⟩ := by
  have hfind : findUserReactionEventId store userPubkey trackPubkey trackDTag
      = none := by
    have hq : ∀ e ∈ querySync store
        ⟨[REACTION_KIND], [userPubkey], none,
          some [createTrackReference trackPubkey trackDTag]⟩,
        ¬ (affirmativeContent e.content = true) := by
      intro e he
      rcases mem_querySync he with ⟨hmem, hmatch⟩
      simp only [filterMatches, Bool.and_eq_true, decide_eq_true_eq,
        List.mem_singleton] at hmatch
      rcases hmatch with ⟨⟨⟨hkind, hauthor⟩, _⟩, htag⟩
      simp [hnone e hmem hkind hauthor htag]
    show Option.map (fun e => e.id)
      (List.find? (fun e => affirmativeContent e.content)
        (querySync store ⟨[REACTION_KIND], [userPubkey], none,
          some [createTrackReference trackPubkey trackDTag]⟩)) = none
    rw [List.find?_eq_none.mpr hq]
    rfl
  unfold unlikeTrack
  rw [hfind]

theorem unlikeTrack_noop_spec_witness :
    unlikeTrack [⟨"r1", "alice", 10, 7, [["a", "36787:bob:song"]], "-"⟩]
      "alice" "bob" "song" "d1" 20 ["wss://a"] [] true ⟨some ["x"], []⟩ =
      ⟨.ok false, none, [], ⟨some ["x"], []⟩⟩ :=
  unlikeTrack_noop_spec _ "alice" "bob" "song" "d1" 20 ["wss://a"] [] true
    ⟨some ["x"], []⟩ (by decide)

-- ===================== C1: SWR engine =====================

/-- C1 counterexample: a cache entry whose age exactly equals the staleness
threshold (fetchedAt 0, now 1000, threshold 1000, so age 1000 and age is at
least the threshold) is served as fresh: no background fetch is spawned, the
result is not marked revalidating and the cache is untouched, contradicting
the claimed behaviour at age equal to the threshold. -/
theorem swr_age_equal_threshold_counterexample :
    (1000 : Int) - 0 ≥ 1000 ∧
    (swr (T := Int) (E := Unit) (some ⟨0, 0⟩) (.ok 1) 1000 1001 1000).bgFetches
      = 0 ∧
    (swr (T := Int) (E := Unit) (some ⟨0, 0⟩) (.ok 1) 1000 1001 1000).result
      = .ok ⟨0, true, false⟩ ∧
    (swr (T := Int) (E := Unit) (some ⟨0, 0⟩) (.ok 1) 1000 1001 1000).cacheAfter
      = some ⟨0, 0⟩ :=
  ⟨by decide, rfl, rfl, rfl⟩

/-- C1 (amended): for every swr call, (1) a present cache entry whose age is
at most (not strictly below) the threshold is returned with no fetch of any
kind and an unchanged cache; (2) a present cache entry whose age strictly
exceeds the threshold is returned immediately while exactly one background
fetch is spawned, whose success overwrites the cache with the fresh value and
invokes the update callback, and whose failure invokes the error callback and
leaves the stale entry unchanged; (3) with no cached value the fetch runs
synchronously, its result is written to the cache and returned. -/
theorem swr_spec {T E : Type} (cached : Option (CacheEntry T))
    (fetchResult : Except E T) (nowMs bgNowMs staleThreshold : Int) :
    (∀ entry, cached = some entry →
      nowMs - entry.fetchedAt ≤ staleThreshold →
      swr cached fetchResult nowMs bgNowMs staleThreshold =
        ⟨.ok ⟨entry.data, true, false⟩, 0, 0, some entry, [], 0⟩) ∧
    (∀ entry, cached = some entry →
      nowMs - entry.fetchedAt > staleThreshold →
      (swr cached fetchResult nowMs bgNowMs staleThreshold).result
          = .ok ⟨entry.data, true, true⟩ ∧
      (swr cached fetchResult nowMs bgNowMs staleThreshold).syncFetches = 0 ∧
      (swr cached fetchResult nowMs bgNowMs staleThreshold).bgFetches = 1 ∧
      (∀ v, fetchResult = .ok v →
        (swr cached fetchResult nowMs bgNowMs staleThreshold).cacheAfter
            = some ⟨v, bgNowMs⟩ ∧
        (swr cached fetchResult nowMs bgNowMs staleThreshold).updates = [v] ∧
        (swr cached fetchResult nowMs bgNowMs staleThreshold).errorCalls = 0) ∧
      (∀ err, fetchResult = .error err →
        (swr cached fetchResult nowMs bgNowMs staleThreshold).cacheAfter
            = some entry ∧
        (swr cached fetchResult nowMs bgNowMs staleThreshold).updates = [] ∧
        (swr cached fetchResult nowMs bgNowMs staleThreshold).errorCalls = 1)) ∧
    (cached = none →
      (swr cached fetchResult nowMs bgNowMs staleThreshold).syncFetches = 1 ∧
      (swr cached fetchResult nowMs bgNowMs staleThreshold).bgFetches = 0 ∧
      (∀ v, fetchResult = .ok v →
        swr cached fetchResult nowMs bgNowMs staleThreshold =
          ⟨.ok ⟨v, false, false⟩, 1, 0, some ⟨v, nowMs⟩, [], 0⟩) ∧
      (∀ err, fetchResult = .error err →
        swr cached fetchResult nowMs bgNowMs staleThreshold =
          ⟨.error err, 1, 0, none, [], 0⟩)) := by
  refine ⟨?_, ?_, ?_⟩
  · rintro entry rfl hage
    have hst : isStale entry.fetchedAt staleThreshold nowMs = false := by
      simp only [isStale, decide_eq_false_iff_not]
      omega
    simp [swr, hst]
  · rintro entry rfl hage
    have hst : isStale entry.fetchedAt staleThreshold nowMs = true := by
      simp only [isStale, decide_eq_true_eq]
      omega
    cases fetchResult with
    | ok v =>
      refine ⟨by simp [swr, hst], by simp [swr, hst], by simp [swr, hst],
        ?_, ?_⟩
      · rintro w hw
        injection hw with hw
        subst hw
        exact ⟨by simp [swr, hst, revalidateInBackground],
          by simp [swr, hst, revalidateInBackground],
          by simp [swr, hst, revalidateInBackground]⟩
      · rintro err herr
        exact absurd herr (by simp)
    | error e =>
      refine ⟨by simp [swr, hst], by simp [swr, hst], by simp [swr, hst],
        ?_, ?_⟩
      · rintro w hw
        exact absurd hw (by simp)
      · rintro err herr
        injection herr with herr
        subst herr
        exact ⟨by simp [swr, hst, revalidateInBackground],
          by simp [swr, hst, revalidateInBackground],
          by simp [swr, hst, revalidateInBackground]⟩
  · rintro rfl
    cases fetchResult with
    | ok v =>
      exact ⟨rfl, rfl, fun w hw => by injection hw with hw; subst hw; rfl,
        fun err herr => absurd herr (by simp)⟩
    | error e =>
      exact ⟨rfl, rfl, fun w hw => absurd hw (by simp),
        fun err herr => by injection herr with herr; subst herr; rfl⟩

theorem swr_spec_witness :
    swr (T := Int) (E := Unit) (some ⟨5, 0⟩) (.ok 9) 10 11 100 =
      ⟨.ok ⟨5, true, false⟩, 0, 0, some ⟨5, 0⟩, [], 0⟩ ∧
    (swr (T := Int) (E := Unit) (some ⟨5, 0⟩) (.ok 9) 200 201 100).bgFetches
      = 1 ∧
    (swr (T := Int) (E := Unit) (some ⟨5, 0⟩) (.ok 9) 200 201 100).cacheAfter
      = some ⟨9, 201⟩ ∧
    (swr (T := Int) (E := Unit) (none) (.ok 9) 10 11 100) =
      ⟨.ok ⟨9, false, false⟩, 1, 0, some ⟨9, 10⟩, [], 0⟩ :=
  ⟨(swr_spec (some ⟨5, 0⟩) (.ok 9) 10 11 100).1 ⟨5, 0⟩ rfl (by decide),
   ((swr_spec (some ⟨5, 0⟩) (.ok 9) 200 201 100).2.1 ⟨5, 0⟩ rfl
     (by decide)).2.2.1,
   (((swr_spec (some ⟨5, 0⟩) (.ok 9) 200 201 100).2.1 ⟨5, 0⟩ rfl
     (by decide)).2.2.2.1 9 rfl).1,
   ((swr_spec (E := Unit) none (.ok 9) 10 11 100).2.2 rfl).2.2.1 9 rfl⟩

-- ===================== C2: retry sweep =====================

/-- Remaining-queue characterization of the retry sweep: an item survives the
sweep exactly when it is within the age and retry ceilings and its publish
failed, and then it survives with its retry count incremented. -/
theorem retryPendingEvents_remaining_eq (nowMs : Int)
    (publishOk : PendingEvent → Bool) : ∀ l : List PendingEvent,
    (retryPendingEvents nowMs publishOk l).remaining =
      l.filterMap (fun item =>
        if nowMs - item.createdAt > maxAgeMs then none
        else if item.retryCount ≥ 10 then none
        else if publishOk item then none
        else some { item with retryCount := item.retryCount + 1 }) := by
  intro l
  induction l with
  | nil => rfl
  | cons item rest ih =>
    by_cases h1 : nowMs - item.createdAt > maxAgeMs
    · simp [retryPendingEvents, h1, List.filterMap_cons, ih]
    · by_cases h2 : item.retryCount ≥ 10
      · simp [retryPendingEvents, h1, h2, List.filterMap_cons, ih]
      · by_cases h3 : publishOk item
        · simp [retryPendingEvents, h1, h2, h3, List.filterMap_cons, ih]
        · simp [retryPendingEvents, h1, h2, h3, List.filterMap_cons, ih]

/-- Publish-attempt characterization of the retry sweep: exactly the items
within both ceilings are attempted, each to its full target relay set. -/
theorem retryPendingEvents_attempts_eq (nowMs : Int)
    (publishOk : PendingEvent → Bool) : ∀ l : List PendingEvent,
    (retryPendingEvents nowMs publishOk l).attempts =
      (l.filter (fun item =>
        ¬ (nowMs - item.createdAt > maxAgeMs) ∧ ¬ (item.retryCount ≥ 10))).map
        (fun item => (item.event.id, item.targetRelays)) := by
  intro l
  induction l with
  | nil => rfl
  | cons item rest ih =>
    by_cases h1 : nowMs - item.createdAt > maxAgeMs
    · have h1a : ¬ (nowMs ≤ maxAgeMs + item.createdAt) := by omega
      simp [retryPendingEvents, h1, h1a, List.filter_cons, ih]
    · have h1a : nowMs ≤ maxAgeMs + item.createdAt := by omega
      by_cases h2 : item.retryCount ≥ 10
      · have h2a : ¬ (item.retryCount < 10) := by omega
        simp [retryPendingEvents, h1, h2, h2a, List.filter_cons, ih]
      · have h2a : item.retryCount < 10 := by omega
        by_cases h3 : publishOk item
        · simp [retryPendingEvents, h1, h2, h3, h1a, h2a, List.filter_cons, ih]
        · simp [retryPendingEvents, h1, h2, h3, h1a, h2a, List.filter_cons, ih]

/-- C2: in a retry sweep over a queue with no duplicate event ids, an item
older than seven days is removed without any publish attempt; an item with
ten or more retries is removed without any publish attempt regardless of age;
every other item is published to its full target relay set, leaving the queue
on success and staying queued with its retry count incremented by exactly one
on failure. -/
theorem retryPendingEvents_spec (pending : List PendingEvent) (nowMs : Int)
    (publishOk : PendingEvent → Bool)
    (hids : (pending.map (fun p => p.event.id)).Nodup) :
    ∀ item ∈ pending,
      ((nowMs - item.createdAt > maxAgeMs ∨ item.retryCount ≥ 10) →
        (∀ a ∈ (retryPendingEvents nowMs publishOk pending).attempts,
          a.1 ≠ item.event.id) ∧
        (∀ r ∈ (retryPendingEvents nowMs publishOk pending).remaining,
          r.event.id ≠ item.event.id)) ∧
      (¬ (nowMs - item.createdAt > maxAgeMs) → ¬ (item.retryCount ≥ 10) →
        ((item.event.id, item.targetRelays) ∈
          (retryPendingEvents nowMs publishOk pending).attempts ∧
        (publishOk item = true →
          ∀ r ∈ (retryPendingEvents nowMs publishOk pending).remaining,
            r.event.id ≠ item.event.id) ∧
        (publishOk item = false →
          { item with retryCount := item.retryCount + 1 } ∈
            (retryPendingEvents nowMs publishOk pending).remaining))) := by
  intro item hitem
  have hinj := List.inj_on_of_nodup_map hids
  have hrem := retryPendingEvents_remaining_eq nowMs publishOk pending
  have hatt := retryPendingEvents_attempts_eq nowMs publishOk pending
  have hremid : ∀ r ∈ (retryPendingEvents nowMs publishOk pending).remaining,
      ∃ i ∈ pending, (¬ (nowMs - i.createdAt > maxAgeMs)) ∧
        (¬ (i.retryCount ≥ 10)) ∧ publishOk i = false ∧
        r = { i with retryCount := i.retryCount + 1 } := by
    intro r hr
    rw [hrem] at hr
    rcases List.mem_filterMap.mp hr with ⟨i, hi, heq⟩
    by_cases h1 : nowMs - i.createdAt > maxAgeMs
    · rw [if_pos h1] at heq; exact absurd heq (by simp)
    · rw [if_neg h1] at heq
      by_cases h2 : i.retryCount ≥ 10
      · rw [if_pos h2] at heq; exact absurd heq (by simp)
      · rw [if_neg h2] at heq
        by_cases h3 : publishOk i
        · rw [if_pos h3] at heq; exact absurd heq (by simp)
        · rw [if_neg h3] at heq
          exact ⟨i, hi, h1, h2, by simpa using h3, (Option.some_inj.mp heq).symm⟩
  constructor
  · intro hev
    constructor
    · intro a ha hid
      rw [hatt] at ha
      rcases List.mem_map.mp ha with ⟨i, hi, heq⟩
      have hid2 : i.event.id = item.event.id := by rw [← heq] at hid; exact hid
      have hieq : i = item := hinj (List.mem_filter.mp hi).1 hitem hid2
      have hcond := (List.mem_filter.mp hi).2
      rw [hieq] at hcond
      simp only [decide_eq_true_eq] at hcond
      rcases hev with h | h
      · exact absurd h hcond.1
      · exact absurd h hcond.2
    · intro r hr hid
      rcases hremid r hr with ⟨i, hi, h1, h2, _, rfl⟩
      have hid2 : i.event.id = item.event.id := hid
      have hieq : i = item := hinj hi hitem hid2
      rw [hieq] at h1 h2
      rcases hev with h | h
      · exact absurd h h1
      · exact absurd h h2
  · intro h1 h2
    refine ⟨?_, ?_, ?_⟩
    · rw [hatt]
      exact List.mem_map.mpr ⟨item,
        List.mem_filter.mpr ⟨hitem, by simp [h1, h2]⟩, rfl⟩
    · intro hpub r hr hid
      rcases hremid r hr with ⟨i, hi, _, _, hpub2, rfl⟩
      have hid2 : i.event.id = item.event.id := hid
      have hieq : i = item := hinj hi hitem hid2
      rw [hieq, hpub] at hpub2
      exact absurd hpub2 (by simp)
    · intro hpub
      rw [hrem]
      refine List.mem_filterMap.mpr ⟨item, hitem, ?_⟩
      rw [if_neg h1, if_neg h2, if_neg (by simp [hpub])]
theorem retryPendingEvents_spec_witness :
    ((retryPendingEvents 0 (fun p => p.targetRelays ≠ [])
        [⟨⟨"old", "a", 1, 7, [], ""⟩, ["wss://r"], -700000000000, 0⟩,
         ⟨⟨"tired", "a", 1, 7, [], ""⟩, ["wss://r"], -5, 10⟩,
         ⟨⟨"good", "a", 1, 7, [], ""⟩, ["wss://r"], -5, 2⟩,
         ⟨⟨"bad", "a", 1, 7, [], ""⟩, [], -5, 2⟩]).attempts =
      [("good", ["wss://r"]), ("bad", [])]) ∧
    ((retryPendingEvents 0 (fun p => p.targetRelays ≠ [])
        [⟨⟨"old", "a", 1, 7, [], ""⟩, ["wss://r"], -700000000000, 0⟩,
         ⟨⟨"tired", "a", 1, 7, [], ""⟩, ["wss://r"], -5, 10⟩,
         ⟨⟨"good", "a", 1, 7, [], ""⟩, ["wss://r"], -5, 2⟩,
         ⟨⟨"bad", "a", 1, 7, [], ""⟩, [], -5, 2⟩]).remaining =
      [⟨⟨"bad", "a", 1, 7, [], ""⟩, [], -5, 3⟩]) ∧
    (⟨⟨"bad", "a", 1, 7, [], ""⟩, [], -5, 3⟩ ∈
      (retryPendingEvents 0 (fun p => p.targetRelays ≠ [])
        [⟨⟨"old", "a", 1, 7, [], ""⟩, ["wss://r"], -700000000000, 0⟩,
         ⟨⟨"tired", "a", 1, 7, [], ""⟩, ["wss://r"], -5, 10⟩,
         ⟨⟨"good", "a", 1, 7, [], ""⟩, ["wss://r"], -5, 2⟩,
         ⟨⟨"bad", "a", 1, 7, [], ""⟩, [], -5, 2⟩]).remaining) :=
  ⟨by decide, by decide,
   ((retryPendingEvents_spec
      [⟨⟨"old", "a", 1, 7, [], ""⟩, ["wss://r"], -700000000000, 0⟩,
       ⟨⟨"tired", "a", 1, 7, [], ""⟩, ["wss://r"], -5, 10⟩,
       ⟨⟨"good", "a", 1, 7, [], ""⟩, ["wss://r"], -5, 2⟩,
       ⟨⟨"bad", "a", 1, 7, [], ""⟩, [], -5, 2⟩] 0 (fun p => p.targetRelays ≠ [])
      (by decide) ⟨⟨"bad", "a", 1, 7, [], ""⟩, [], -5, 2⟩
      (by decide)).2 (by decide) (by decide)).2.2 (by decide)⟩

-- ===================== C8: deletions and liked membership =====================

/-- Store used as the C8 counterexample: an affirmative reaction by alice on
the track 36787:bob:song, together with a later deletion event by alice
naming that reaction by id. -/
def likedCexStore : List NEvent :=
  [⟨"r1", "alice", 10, REACTION_KIND,
     [["e", "t1"], ["a", "36787:bob:song"], ["p", "bob"], ["k", "36787"]], "+"⟩,
   ⟨"d1", "alice", 20, DELETION_KIND,
     [["e", "r1"], ["k", "7"]], "unlike"⟩]

/-- C8 counterexample: the observed store holds a deletion event naming the
reaction r1, yet the reaction still counts toward liked membership: the
liked-set fetch returns its track reference and the membership check answers
true, contradicting the claim that a deleted reaction must not appear in the
liked set. -/
theorem likedRefs_deletion_counterexample :
    (⟨"d1", "alice", 20, DELETION_KIND, [["e", "r1"], ["k", "7"]], "unlike"⟩
        : NEvent) ∈ likedCexStore ∧
    (∃ e ∈ likedCexStore, e.id = "r1" ∧ e.content = "+" ∧
      ["a", "36787:bob:song"] ∈ e.tags) ∧
    "bob:song" ∈ fetchUserLikedTrackRefs likedCexStore "alice" ∧
    (isTrackLiked likedCexStore none none "alice" "bob" "song").1 = true := by
  refine ⟨by decide, ⟨likedCexStore.head (by decide), by decide, by decide,
    by decide, by decide⟩, by decide, by decide⟩

/-- C8 (amended): the liked-membership computation is independent of every
event that is not a reaction: deletion events in the observed store are never
consulted, so a reaction counts as liked exactly while the relays still
return it with an affirmative marker; revocation relies on relays honouring
deletion requests and on the optimistic cache update performed by
unlikeTrack. The membership check with no loaded cache answers exactly by
membership of the fetched liked set. -/
theorem likedRefs_ignore_deletions_spec (store : List NEvent)
    (user trackPubkey trackDTag : String) :
    fetchUserLikedTrackRefs store user =
      fetchUserLikedTrackRefs
        (store.filter (fun e => e.kind = REACTION_KIND)) user ∧
    (isTrackLiked store none none user trackPubkey trackDTag).1 =
      decide (likedKey trackPubkey trackDTag ∈
        fetchUserLikedTrackRefs store user) := by
  constructor
  · unfold fetchUserLikedTrackRefs
    congr 1
    unfold querySync
    congr 1
    rw [List.filter_filter]
    apply List.filter_congr
    intro e _
    cases hm : filterMatches
        ⟨[REACTION_KIND], [user], some [toString MUSIC_TRACK_KIND], none⟩ e with
    | false => rfl
    | true =>
      have hk : e.kind = REACTION_KIND := by
        simp only [filterMatches, Bool.and_eq_true, decide_eq_true_eq,
          List.mem_singleton] at hm
        exact hm.1.1.1
      simp [hk]
  · rfl

-- ===================== C6: track reference round trip =====================

theorem splitOnColonAux_no_colon (xs : List Char) (hx : ':' ∉ xs) :
    ∀ acc, splitOnColonAux xs acc = [String.mk (acc.reverse ++ xs)] := by
  induction xs with
  | nil => intro acc; simp [splitOnColonAux]
  | cons c cs ih =>
    intro acc
    have hc : c ≠ ':' := fun h => hx (h ▸ List.mem_cons_self c cs)
    have hcs : ':' ∉ cs := fun h => hx (List.mem_cons_of_mem c h)
    simp only [splitOnColonAux, if_neg hc]
    rw [ih hcs]
    simp

theorem splitOnColonAux_append (xs ys : List Char) (hx : ':' ∉ xs) :
    ∀ acc, splitOnColonAux (xs ++ ':' :: ys) acc =
      String.mk (acc.reverse ++ xs) :: splitOnColonAux ys [] := by
  induction xs with
  | nil => intro acc; simp [splitOnColonAux]
  | cons c cs ih =>
    intro acc
    have hc : c ≠ ':' := fun h => hx (h ▸ List.mem_cons_self c cs)
    have hcs : ':' ∉ cs := fun h => hx (List.mem_cons_of_mem c h)
    show splitOnColonAux (c :: (cs ++ ':' :: ys)) acc = _
    simp only [splitOnColonAux, if_neg hc]
    rw [ih hcs]
    simp

/-- C6 counterexample: a d tag containing a colon breaks the round trip: the
built reference splits into four parts, so parsing rejects it outright
instead of recovering the triple. -/
theorem trackReference_roundtrip_counterexample :
    parseTrackReference (createTrackReference "p" "a:b") = none ∧
    splitOnColon (createTrackReference "p" "a:b") = ["36787", "p", "a", "b"] :=
  ⟨rfl, rfl⟩

/-- C6 (amended): for every author key and d tag in which no colon occurs,
parsing the track-pointer string built from them recovers exactly the triple
of the music track kind, the author key and the d tag; a colon inside either
component defeats the three-way split of the parser. -/
theorem trackReference_roundtrip_spec (pubkey dTag : String)
    (hp : ':' ∉ pubkey.data) (hd : ':' ∉ dTag.data) :
    parseTrackReference (createTrackReference pubkey dTag) =
      some ⟨MUSIC_TRACK_KIND, pubkey, dTag⟩ := by
  have hdata : (createTrackReference pubkey dTag).data =
      ['3', '6', '7', '8', '7'] ++ ':' :: (pubkey.data ++ ':' :: dTag.data) := by
    show (toString MUSIC_TRACK_KIND ++ ":" ++ pubkey ++ ":" ++ dTag).data = _
    rw [String.data_append, String.data_append, String.data_append,
      String.data_append,
      show toString MUSIC_TRACK_KIND = "36787" from rfl]
    simp only [List.append_assoc]
    rfl
  have hsplit : splitOnColon (createTrackReference pubkey dTag) =
      ["36787", pubkey, dTag] := by
    unfold splitOnColon
    rw [hdata, splitOnColonAux_append _ _ (by decide),
      splitOnColonAux_append _ _ hp, splitOnColonAux_no_colon _ hd]
    rfl
  unfold parseTrackReference
  rw [hsplit]
  rfl

theorem trackReference_roundtrip_spec_witness :
    parseTrackReference (createTrackReference "alicepk" "song-1") =
      some ⟨MUSIC_TRACK_KIND, "alicepk", "song-1"⟩ :=
  trackReference_roundtrip_spec "alicepk" "song-1" (by decide) (by decide)


-- ===================== C4: identifier-keyed dedup =====================

/-- One step of the per-key selection mirrored by the dedup fold: a candidate
with the key replaces the accumulator only when strictly newer. -/
def pickStep (k : String) (acc : Option TrackEntity) (t : TrackEntity) :
    Option TrackEntity :=
  if dedupKey t = k then
    match acc with
    | none => some t
    | some e => if t.createdAt > e.createdAt then some t else acc
  else acc

/-- Per-key selection over a whole track list. -/
def pickBest (k : String) (acc : Option TrackEntity) :
    List TrackEntity → Option TrackEntity
  | [] => acc
  | t :: ts => pickBest k (pickStep k acc t) ts

theorem mapGet_nil (k : String) : mapGet [] k = none := rfl

theorem mapGet_cons_self (k : String) (v : TrackEntity)
    (rest : List (String × TrackEntity)) :
    mapGet ((k, v) :: rest) k = some v := by
  unfold mapGet
  rw [List.find?_cons_of_pos _ (by simp)]
  rfl

theorem mapGet_cons_ne (k k1 : String) (v1 : TrackEntity)
    (rest : List (String × TrackEntity)) (h : k1 ≠ k) :
    mapGet ((k1, v1) :: rest) k = mapGet rest k := by
  unfold mapGet
  rw [List.find?_cons_of_neg _ (by simp [h])]

theorem mapSet_cons_self (k : String) (v v1 : TrackEntity)
    (rest : List (String × TrackEntity)) :
    mapSet ((k, v1) :: rest) k v = (k, v) :: rest := by
  simp [mapSet]

theorem mapSet_cons_ne (k k1 : String) (v v1 : TrackEntity)
    (rest : List (String × TrackEntity)) (h : k1 ≠ k) :
    mapSet ((k1, v1) :: rest) k v = (k1, v1) :: mapSet rest k v := by
  simp [mapSet, h]

theorem mapGet_mapSet_self (k : String) (v : TrackEntity) :
    ∀ m : List (String × TrackEntity), mapGet (mapSet m k v) k = some v := by
  intro m
  induction m with
  | nil => exact mapGet_cons_self k v []
  | cons p rest ih =>
    obtain ⟨k1, v1⟩ := p
    by_cases h : k1 = k
    · subst h
      rw [mapSet_cons_self]
      exact mapGet_cons_self k1 v rest
    · rw [mapSet_cons_ne _ _ _ _ _ h, mapGet_cons_ne _ _ _ _ h]
      exact ih

theorem mapGet_mapSet_ne (k k2 : String) (v : TrackEntity) (h : k2 ≠ k) :
    ∀ m : List (String × TrackEntity),
    mapGet (mapSet m k v) k2 = mapGet m k2 := by
  intro m
  induction m with
  | nil => exact mapGet_cons_ne _ _ _ _ (fun hh => h hh.symm)
  | cons p rest ih =>
    obtain ⟨k1, v1⟩ := p
    by_cases hk : k1 = k
    · subst hk
      rw [mapSet_cons_self,
        mapGet_cons_ne _ _ _ _ (fun hh => h hh.symm),
        mapGet_cons_ne _ _ _ _ (fun hh => h hh.symm)]
    · rw [mapSet_cons_ne _ _ _ _ _ hk]
      by_cases h1 : k1 = k2
      · subst h1
        rw [mapGet_cons_self, mapGet_cons_self]
      · rw [mapGet_cons_ne _ _ _ _ h1, mapGet_cons_ne _ _ _ _ h1, ih]

/-- Unfolding equation for dedupStep with the match made explicit. -/
theorem dedupStep_def (m : List (String × TrackEntity)) (t : TrackEntity) :
    dedupStep m t =
      match mapGet m (dedupKey t) with
      | some existing =>
        if t.createdAt > existing.createdAt then mapSet m (dedupKey t) t else m
      | none => mapSet m (dedupKey t) t := rfl

theorem dedupStep_cases (m : List (String × TrackEntity)) (t : TrackEntity) :
    dedupStep m t = m ∨ dedupStep m t = mapSet m (dedupKey t) t := by
  rw [dedupStep_def]
  cases hmk : mapGet m (dedupKey t) with
  | none => exact Or.inr rfl
  | some e =>
    dsimp only
    by_cases hgt : t.createdAt > e.createdAt
    · rw [if_pos hgt]; exact Or.inr rfl
    · rw [if_neg hgt]; exact Or.inl rfl

theorem mapGet_dedupStep (m : List (String × TrackEntity)) (t : TrackEntity)
    (k : String) : mapGet (dedupStep m t) k = pickStep k (mapGet m k) t := by
  rw [dedupStep_def]
  unfold pickStep
  by_cases hk : dedupKey t = k
  · subst hk
    cases hmk : mapGet m (dedupKey t) with
    | none => rw [if_pos rfl, mapGet_mapSet_self]
    | some e =>
      dsimp only
      by_cases hgt : t.createdAt > e.createdAt
      · rw [if_pos hgt, if_pos rfl, if_pos hgt, mapGet_mapSet_self]
      · rw [if_neg hgt, if_pos rfl, if_neg hgt]
        exact hmk
  · rw [if_neg hk]
    cases hmk : mapGet m (dedupKey t) with
    | none => exact mapGet_mapSet_ne _ _ _ (fun h => hk h.symm) m
    | some e =>
      dsimp only
      by_cases hgt : t.createdAt > e.createdAt
      · rw [if_pos hgt]
        exact mapGet_mapSet_ne _ _ _ (fun h => hk h.symm) m
      · rw [if_neg hgt]

theorem mapGet_foldl_dedupStep (k : String) : ∀ (ts : List TrackEntity)
    (m : List (String × TrackEntity)),
    mapGet (ts.foldl dedupStep m) k = pickBest k (mapGet m k) ts := by
  intro ts
  induction ts with
  | nil => intro m; rfl
  | cons t ts ih =>
    intro m
    show mapGet (ts.foldl dedupStep (dedupStep m t)) k
      = pickBest k (pickStep k (mapGet m k) t) ts
    rw [ih, mapGet_dedupStep]

theorem keysOk_mapSet (v : TrackEntity) : ∀ m : List (String × TrackEntity),
    (∀ p ∈ m, p.1 = dedupKey p.2) →
    ∀ p ∈ mapSet m (dedupKey v) v, p.1 = dedupKey p.2 := by
  intro m
  induction m with
  | nil =>
    intro _ p hp
    rcases List.mem_singleton.mp hp with rfl
    rfl
  | cons q rest ih =>
    obtain ⟨k1, v1⟩ := q
    intro hm p hp
    by_cases h : k1 = dedupKey v
    · subst h
      rw [mapSet_cons_self] at hp
      rcases List.mem_cons.mp hp with rfl | hp2
      · rfl
      · exact hm p (List.mem_cons_of_mem _ hp2)
    · rw [mapSet_cons_ne _ _ _ _ _ h] at hp
      rcases List.mem_cons.mp hp with rfl | hp2
      · exact hm _ (List.mem_cons_self _ _)
      · exact ih (fun q hq => hm q (List.mem_cons_of_mem _ hq)) p hp2

theorem keysOk_foldl_dedupStep : ∀ (ts : List TrackEntity)
    (m : List (String × TrackEntity)),
    (∀ p ∈ m, p.1 = dedupKey p.2) →
    ∀ p ∈ ts.foldl dedupStep m, p.1 = dedupKey p.2 := by
  intro ts
  induction ts with
  | nil => intro m hq p hp; exact hq p hp
  | cons t ts ih =>
    intro m hm
    refine ih (dedupStep m t) ?_
    rcases dedupStep_cases m t with h | h
    · rw [h]; exact hm
    · rw [h]; exact keysOk_mapSet t m hm

theorem keys_mapSet_mem (k2 k : String) (v : TrackEntity) :
    ∀ m : List (String × TrackEntity),
    k2 ∈ (mapSet m k v).map Prod.fst → k2 ∈ m.map Prod.fst ∨ k2 = k := by
  intro m
  induction m with
  | nil =>
    intro h
    simp only [mapSet, List.map_cons, List.map_nil, List.mem_singleton] at h
    exact Or.inr h
  | cons q rest ih =>
    obtain ⟨k1, v1⟩ := q
    by_cases h : k1 = k
    · subst h
      rw [mapSet_cons_self]
      simp only [List.map_cons, List.mem_cons]
      rintro (rfl | h2)
      · exact Or.inr rfl
      · exact Or.inl (Or.inr h2)
    · rw [mapSet_cons_ne _ _ _ _ _ h]
      simp only [List.map_cons, List.mem_cons]
      rintro (rfl | h2)
      · exact Or.inl (Or.inl rfl)
      · rcases ih h2 with h3 | h3
        · exact Or.inl (Or.inr h3)
        · exact Or.inr h3

theorem keysNodup_mapSet (k : String) (v : TrackEntity) :
    ∀ m : List (String × TrackEntity),
    (m.map Prod.fst).Nodup → ((mapSet m k v).map Prod.fst).Nodup := by
  intro m
  induction m with
  | nil => intro _; simp [mapSet]
  | cons q rest ih =>
    obtain ⟨k1, v1⟩ := q
    intro hnd
    rcases List.nodup_cons.mp hnd with ⟨hk1, hrest⟩
    by_cases h : k1 = k
    · subst h
      rw [mapSet_cons_self]
      exact List.nodup_cons.mpr ⟨hk1, hrest⟩
    · rw [mapSet_cons_ne _ _ _ _ _ h]
      simp only [List.map_cons]
      refine List.nodup_cons.mpr ⟨?_, ih hrest⟩
      intro hmem
      rcases keys_mapSet_mem _ _ _ rest hmem with h2 | h2
      · exact hk1 h2
      · exact h h2

theorem keysNodup_foldl_dedupStep : ∀ (ts : List TrackEntity)
    (m : List (String × TrackEntity)),
    (m.map Prod.fst).Nodup → ((ts.foldl dedupStep m).map Prod.fst).Nodup := by
  intro ts
  induction ts with
  | nil => intro m hm; exact hm
  | cons t ts ih =>
    intro m hm
    refine ih (dedupStep m t) ?_
    rcases dedupStep_cases m t with h | h
    · rw [h]; exact hm
    · rw [h]; exact keysNodup_mapSet _ _ m hm

theorem mem_of_mapGet_eq_some {m : List (String × TrackEntity)} {k : String}
    {v : TrackEntity} (h : mapGet m k = some v) : (k, v) ∈ m := by
  unfold mapGet at h
  cases hf : m.find? (fun p => p.1 = k) with
  | none => rw [hf] at h; exact absurd h (by simp)
  | some p =>
    rw [hf] at h
    have hp1 : p.1 = k := by
      have := List.find?_some hf
      simpa using this
    have hp2 : p.2 = v := by simpa using h
    have hmem := List.mem_of_find?_eq_some hf
    obtain ⟨a, b⟩ := p
    rw [← hp1, ← hp2]
    exact hmem

theorem mapGet_eq_some_of_mem : ∀ {m : List (String × TrackEntity)}
    {k : String} {v : TrackEntity},
    (m.map Prod.fst).Nodup → (k, v) ∈ m → mapGet m k = some v := by
  intro m
  induction m with
  | nil => intro k v _ hmem; simp at hmem
  | cons q rest ih =>
    obtain ⟨k1, v1⟩ := q
    intro k v hnd hmem
    rcases List.nodup_cons.mp hnd with ⟨hk1, hrest⟩
    rcases List.mem_cons.mp hmem with heq | hmem2
    · injection heq with h1 h2
      subst h1; subst h2
      exact mapGet_cons_self _ _ _
    · have hk1ne : k1 ≠ k := by
        intro h
        subst h
        exact hk1 (List.mem_map.mpr ⟨(k1, v), hmem2, rfl⟩)
      rw [mapGet_cons_ne _ _ _ _ hk1ne]
      exact ih hrest hmem2

theorem pickStep_hit_none (k : String) (t : TrackEntity) (h : dedupKey t = k) :
    pickStep k none t = some t := by
  simp [pickStep, h]

theorem pickStep_hit_newer (k : String) (t e : TrackEntity)
    (h : dedupKey t = k) (hgt : t.createdAt > e.createdAt) :
    pickStep k (some e) t = some t := by
  simp [pickStep, h, hgt]

theorem pickStep_hit_older (k : String) (t e : TrackEntity)
    (h : dedupKey t = k) (hgt : ¬ t.createdAt > e.createdAt) :
    pickStep k (some e) t = some e := by
  simp [pickStep, h, hgt]

theorem pickStep_miss (k : String) (t : TrackEntity) (acc : Option TrackEntity)
    (h : dedupKey t ≠ k) : pickStep k acc t = acc := by
  simp [pickStep, h]

theorem pickBest_stays (k : String) (t : TrackEntity) :
    ∀ ts : List TrackEntity,
    (∀ v ∈ ts, dedupKey v = k → v.createdAt ≤ t.createdAt) →
    pickBest k (some t) ts = some t := by
  intro ts
  induction ts with
  | nil => intro _; rfl
  | cons v ts ih =>
    intro hle
    show pickBest k (pickStep k (some t) v) ts = some t
    have hstep : pickStep k (some t) v = some t := by
      by_cases hk : dedupKey v = k
      · exact pickStep_hit_older k v t hk
          (by have := hle v (List.mem_cons_self _ _) hk; omega)
      · exact pickStep_miss k v _ hk
    rw [hstep]
    exact ih (fun u hu => hle u (List.mem_cons_of_mem _ hu))

theorem pickBest_eq_max (k : String) (t : TrackEntity) :
    ∀ (ts : List TrackEntity) (acc : Option TrackEntity),
    t ∈ ts → dedupKey t = k →
    (∀ u ∈ ts, dedupKey u = k → u ≠ t → u.createdAt < t.createdAt) →
    (∀ e, acc = some e → e.createdAt < t.createdAt) →
    pickBest k acc ts = some t := by
  intro ts
  induction ts with
  | nil => intro acc h; simp at h
  | cons u ts ih =>
    intro acc hmem hk hmax hacc
    show pickBest k (pickStep k acc u) ts = some t
    by_cases hut : u = t
    · subst hut
      have hstep : pickStep k acc u = some u := by
        cases hae : acc with
        | none => exact pickStep_hit_none k u hk
        | some e =>
          exact pickStep_hit_newer k u e hk (by have := hacc e hae; omega)
      rw [hstep]
      refine pickBest_stays k u ts ?_
      intro v hv hvk
      by_cases hvt : v = u
      · subst hvt; exact le_refl _
      · have := hmax v (List.mem_cons_of_mem _ hv) hvk hvt
        omega
    · have hmem2 : t ∈ ts := by
        rcases List.mem_cons.mp hmem with h | h
        · exact absurd h.symm hut
        · exact h
      refine ih (pickStep k acc u) hmem2 hk
        (fun v hv hvk hvt => hmax v (List.mem_cons_of_mem _ hv) hvk hvt) ?_
      intro e he
      by_cases hku : dedupKey u = k
      · have hu : u.createdAt < t.createdAt :=
          hmax u (List.mem_cons_self _ _) hku hut
        cases hae : acc with
        | none =>
          rw [hae, pickStep_hit_none k u hku] at he
          injection he with he
          subst he
          exact hu
        | some e0 =>
          have he0 := hacc e0 hae
          by_cases hgt : u.createdAt > e0.createdAt
          · rw [hae, pickStep_hit_newer k u e0 hku hgt] at he
            injection he with he
            subst he
            exact hu
          · rw [hae, pickStep_hit_older k u e0 hku hgt] at he
            injection he with he
            subst he
            exact he0
      · rw [pickStep_miss k u acc hku] at he
        exact hacc e he

/-- C4 counterexample: the composite key is a bare string concatenation, so
the distinct identifier pairs of pubkey a:b with d tag c and of pubkey a with
d tag b:c collide on the key a:b:c; in a list where the first pair occurs
twice with distinct timestamps and the second pair once more recently, dedup
returns only the second entity and keeps nothing at all for the first pair,
though the claim demands the created_at 150 entity be kept for it. -/
theorem deduplicateTracks_key_collision_counterexample :
    deduplicateTracks
        [⟨"a:b", "c", 100⟩, ⟨"a:b", "c", 150⟩, ⟨"a", "b:c", 200⟩] =
      [⟨"a", "b:c", 200⟩] ∧
    ⟨"a:b", "c", 150⟩ ∉ deduplicateTracks
        [⟨"a:b", "c", 100⟩, ⟨"a:b", "c", 150⟩, ⟨"a", "b:c", 200⟩] ∧
    ¬ ∃ t ∈ deduplicateTracks
        [⟨"a:b", "c", 100⟩, ⟨"a:b", "c", 150⟩, ⟨"a", "b:c", 200⟩],
      t.pubkey = "a:b" ∧ t.d = "c" :=
  ⟨rfl, by decide, by decide⟩

/-- C4 (amended): whenever the concatenated pubkey:d keys do not conflate
distinct identifier pairs of the list (in particular whenever author keys are
colon-free), every track that is the strict-latest version of its
(pubkey, d) pair is kept by deduplicateTracks and is the only entity returned
for that pair; with distinct created_at values inside a pair this is exactly
the highest-created_at version, so two versions with created_at 100 and 200
resolve to the created_at 200 one. -/
theorem deduplicateTracks_spec (tracks : List TrackEntity) (t : TrackEntity)
    (hinj : ∀ u ∈ tracks, ∀ v ∈ tracks,
      dedupKey u = dedupKey v → u.pubkey = v.pubkey ∧ u.d = v.d)
    (ht : t ∈ tracks)
    (hmax : ∀ u ∈ tracks, u.pubkey = t.pubkey → u.d = t.d → u ≠ t →
      u.createdAt < t.createdAt) :
    t ∈ deduplicateTracks tracks ∧
    ∀ u ∈ deduplicateTracks tracks,
      u.pubkey = t.pubkey → u.d = t.d → u = t := by
  have hget : mapGet (tracks.foldl dedupStep []) (dedupKey t) = some t := by
    rw [mapGet_foldl_dedupStep]
    refine pickBest_eq_max (dedupKey t) t tracks (mapGet [] (dedupKey t))
      ht rfl ?_ (by intro e he; exact absurd he (by simp [mapGet_nil]))
    intro u hu hku hut
    rcases hinj u hu t ht hku with ⟨hpk, hd⟩
    exact hmax u hu hpk hd hut
  have hkeys := keysOk_foldl_dedupStep tracks [] (by simp)
  have hnd := keysNodup_foldl_dedupStep tracks [] (by simp)
  constructor
  · exact List.mem_map.mpr ⟨(dedupKey t, t), mem_of_mapGet_eq_some hget, rfl⟩
  · intro u hu hpk hd
    rcases List.mem_map.mp hu with ⟨p, hp, hp2⟩
    obtain ⟨k1, v1⟩ := p
    have hv1 : v1 = u := hp2
    subst hv1
    have hk1 : k1 = dedupKey v1 := hkeys (k1, v1) hp
    have hkey : dedupKey v1 = dedupKey t := by
      unfold dedupKey
      rw [hpk, hd]
    have hgetu : mapGet (tracks.foldl dedupStep []) (dedupKey t) = some v1 := by
      refine mapGet_eq_some_of_mem hnd ?_
      rw [← hkey, ← hk1]
      exact hp
    rw [hget] at hgetu
    injection hgetu with h
    exact h.symm

theorem deduplicateTracks_spec_witness :
    ⟨"alice", "song-1", 200⟩ ∈ deduplicateTracks
      [⟨"alice", "song-1", 100⟩, ⟨"alice", "song-1", 200⟩, ⟨"bob", "x", 50⟩] ∧
    ∀ u ∈ deduplicateTracks
      [⟨"alice", "song-1", 100⟩, ⟨"alice", "song-1", 200⟩, ⟨"bob", "x", 50⟩],
      u.pubkey = "alice" → u.d = "song-1" → u = ⟨"alice", "song-1", 200⟩ :=
  deduplicateTracks_spec
    [⟨"alice", "song-1", 100⟩, ⟨"alice", "song-1", 200⟩, ⟨"bob", "x", 50⟩]
    ⟨"alice", "song-1", 200⟩ (by decide) (by decide) (by decide)

-- ===================== C5: event codec required fields =====================

/-- Track parsing with every required field present (a non-empty first value
for the d, title, artist and url tags) yields an entity whose identity and
required fields equal the source event values. -/
theorem parseMusicTrackEvent_fields (e : NEvent) (d title artist url : String)
    (hk : e.kind = MUSIC_TRACK_KIND)
    (hd : firstTagValue e "d" = some d) (hd0 : d ≠ "")
    (ht : firstTagValue e "title" = some title) (ht0 : title ≠ "")
    (ha : firstTagValue e "artist" = some artist) (ha0 : artist ≠ "")
    (hu : firstTagValue e "url" = some url) (hu0 : url ≠ "") :
    ∃ t, parseMusicTrackEvent e = some t ∧ t.id = e.id ∧ t.pubkey = e.pubkey ∧
      t.createdAt = e.created_at ∧ t.d = d ∧ t.title = title ∧
      t.artist = artist ∧ t.url = url := by
  unfold parseMusicTrackEvent
  rw [if_neg (by simp [hk]), hd, ht, ha, hu]
  dsimp only
  rw [if_neg (by simp [hd0, ht0, ha0, hu0])]
  exact ⟨_, rfl, rfl, rfl, rfl, rfl, rfl, rfl, rfl⟩

theorem parseMusicTrackEvent_fields_witness :
    ∃ t, parseMusicTrackEvent
      ⟨"i1", "pk", 5, 36787,
        [["d", "x"], ["title", "T"], ["artist", "A"], ["url", "u"]], ""⟩
      = some t ∧ t.id = "i1" ∧ t.pubkey = "pk" ∧ t.createdAt = 5 ∧
      t.d = "x" ∧ t.title = "T" ∧ t.artist = "A" ∧ t.url = "u" :=
  parseMusicTrackEvent_fields _ "x" "T" "A" "u" rfl rfl (by decide) rfl
    (by decide) rfl (by decide) rfl (by decide)

/-- Track parsing drops an event whose artist tag is missing: no entity and
no failure. -/
theorem parseMusicTrackEvent_drops_missing (e : NEvent)
    (hk : e.kind = MUSIC_TRACK_KIND)
    (ha : firstTagValue e "artist" = none) :
    parseMusicTrackEvent e = none := by
  unfold parseMusicTrackEvent
  rw [if_neg (by simp [hk])]
  cases hd : firstTagValue e "d" <;> cases ht : firstTagValue e "title" <;>
    cases hu : firstTagValue e "url" <;> simp [ha]

theorem parseMusicTrackEvent_drops_missing_witness :
    parseMusicTrackEvent
      ⟨"i1", "pk", 5, 36787, [["d", "x"], ["title", "T"], ["url", "u"]], ""⟩
      = none :=
  parseMusicTrackEvent_drops_missing _ rfl rfl

/-- Track parsing drops an event whose url tag carries the empty string: the
truthiness guard treats an empty required value as absent. -/
theorem parseMusicTrackEvent_drops_empty (e : NEvent)
    (hk : e.kind = MUSIC_TRACK_KIND)
    (hu : firstTagValue e "url" = some "") :
    parseMusicTrackEvent e = none := by
  unfold parseMusicTrackEvent
  rw [if_neg (by simp [hk])]
  cases hd : firstTagValue e "d" <;> cases ht : firstTagValue e "title" <;>
    cases ha : firstTagValue e "artist" <;> simp [hu]

/-- Playlist parsing with every required field present and every a tag
carrying a pointer value yields an entity whose identity and required fields
equal the source event values, with the pointer list parsed and malformed
pointers dropped. -/
theorem parsePlaylistEvent_fields (e : NEvent) (d title alt : String)
    (hk : e.kind = PLAYLIST_KIND)
    (hd : firstTagValue e "d" = some d) (hd0 : d ≠ "")
    (ht : firstTagValue e "title" = some title) (ht0 : title ≠ "")
    (ha : firstTagValue e "alt" = some alt) (ha0 : alt ≠ "")
    (hval : ∀ a ∈ allTagValues e "a", a.head? ≠ none) :
    ∃ pl, parsePlaylistEvent e = .ok (some pl) ∧ pl.id = e.id ∧
      pl.pubkey = e.pubkey ∧ pl.createdAt = e.created_at ∧ pl.d = d ∧
      pl.title = title ∧ pl.alt = alt ∧
      pl.trackRefs = (allTagValues e "a").filterMap
        (fun a => a.head?.bind parseTrackReference) := by
  have hbare : ((allTagValues e "a").any (fun a => a.head? = none)) = false := by
    rw [List.any_eq_false]
    intro a hmem
    simpa using hval a hmem
  unfold parsePlaylistEvent
  rw [if_neg (by simp [hk]), hd, ht, ha]
  dsimp only
  rw [if_neg (by simp [hd0, ht0, ha0]), if_neg (by rw [hbare]; simp)]
  exact ⟨_, rfl, rfl, rfl, rfl, rfl, rfl, rfl, rfl⟩

/-- C5: the codec claim holds for tracks and for well-formed playlists, but
the playlist parser is not total: on a playlist event with all required
fields present that also carries a value-less a tag, the source calls split
on an undefined pointer and throws a TypeError instead of dropping the
malformed pointer, while the identical event without the bare a tag parses
fine; spec section 4.1 promises malformed pointers are silently dropped, so
the crash is a slip in the code. -/
theorem parsePlaylistEvent_bare_a_tag_throws :
    parsePlaylistEvent
      ⟨"pl1", "pk", 5, 34139,
        [["d", "x"], ["title", "T"], ["alt", "desc"],
         ["a", "36787:p:s"], ["a"]], ""⟩ = .error () ∧
    parsePlaylistEvent
      ⟨"pl1", "pk", 5, 34139,
        [["d", "x"], ["title", "T"], ["alt", "desc"],
         ["a", "36787:p:s"]], ""⟩ =
      .ok (some
        { id := "pl1", pubkey := "pk", createdAt := 5, d := "x",
          title := "T", alt := "desc", description := none, image := none,
          isPublic := true, isPrivate := false, isCollaborative := false,
          categories := [], trackRefs := [⟨36787, "p", "s"⟩],
          content := "" }) :=
  ⟨rfl, rfl⟩

end QBZ
